import Mathlib

/-!
# Verification of the e4b embedding-database engine (src/e4b.cpp)

Shallow embedding of the core engine: configuration parameters, the LSH
projector state, the growable entry store, the bucket index and the query
pipeline.  C `float`/`double` arithmetic is modelled with exact rationals
(`ℚ`); every claim settled here is structural (which values flow where,
ordering, sizes, control flow), not about floating-point rounding.
C array reads are modelled with `List.getD` (out-of-bounds reads, undefined
behaviour in C, read a default); the fallible C conventions (`(uint32_t)-1`
sentinel, a thrown `std::out_of_range`) are modelled with `Option`/`Except`.
The pseudo-random generator of `e4b_init` is abstracted as indexed streams
of draws (`nd i j` the normal draw stored in `projections[i][j]`, `ud i`
the uniform draw stored in `offsets[i]`).
-/

namespace E4B

/-- An indexed entry, mirroring `struct e4b_entry` (`src/e4b.h`):
`text`, `embd`, `n_text`. -/
structure e4b_entry where
  text : String
  embd : List ℚ
  n_text : ℕ
  deriving Repr, DecidableEq, Inhabited

/-- The LSH function context, mirroring `struct e4b_lsh_context`
(`src/e4b.cpp` lines 36-45): random projection vectors and random offsets. -/
structure e4b_lsh_context where
  projections : List (List ℚ)
  offsets : List ℚ
  deriving Repr, DecidableEq

/-- The constructor `e4b_lsh_context(n_hash, n_embd)` (line 37-38):
`projections(n_hash, std::vector<float>(n_embd)), offsets(n_embd)`.
Note that the source sizes `offsets` with `n_embd`, not `n_hash`. -/
def e4b_lsh_context_mk (n_hash n_embd : ℕ) : e4b_lsh_context :=
  { projections := List.replicate n_hash (List.replicate n_embd 0)
    offsets := List.replicate n_embd 0 }

/-- Context parameters, mirroring `struct e4b_context_params` (`src/e4b.h`).
`fn_similarity` is the pluggable similarity function, taking the two
embeddings and `n_embd` exactly as `e4b_similarity_fn_t` does.  The
pluggable `fn_hash` member is instantiated with the built-in `e4b_lsh`
(the default set by `e4b_default_context_params`); it cannot be a field
here because its C type receives the whole `e4b_context*` back.
`grow_ratio` is the C `float` field, modelled exactly as a rational. -/
structure e4b_context_params where
  n_embd : ℕ
  n_max : ℕ
  similarity_search_target : ℚ
  fn_similarity : List ℚ → List ℚ → ℕ → ℚ
  n_hash : ℕ
  n_init_capacity : ℕ
  grow_ratio : ℚ
  use_persistent_storage : Bool

/-- The engine state, mirroring `struct e4b_context` (`src/e4b.cpp` lines
50-72).  The C store is a raw array `entries` with a filled prefix of
length `size`; the model keeps exactly that filled prefix as a list, so
`size` is `entries.length`, and keeps `capacity` as the allocation size.
`index` is the `std::map<std::string, std::vector<int>>`, modelled as an
association list from the signature key to the handle bucket. -/
structure e4b_context where
  cparams : e4b_context_params
  index : List (List Bool × List ℕ)
  lsh_ctx : e4b_lsh_context
  entries : List e4b_entry
  capacity : ℕ

/-- `ctx->size`: occupied slots of the entry store (the model stores
exactly the occupied prefix). -/
def e4b_context.size (ctx : e4b_context) : ℕ := ctx.entries.length

/-- Lookup in the `std::map`: `none` models a key that is absent
(`map::at` throws `std::out_of_range` there). -/
def mapFind (m : List (List Bool × List ℕ)) (k : List Bool) :
    Option (List ℕ) :=
  match m with
  | [] => none
  | p :: rest => if p.1 = k then some p.2 else mapFind rest k

/-- `ctx->index[key].push_back(idx)`: appends `idx` to the bucket for
`key`, creating the bucket (default-constructed empty, then pushed) when
the key is absent — `operator[]` semantics of `std::map`. -/
def mapPush (m : List (List Bool × List ℕ)) (k : List Bool) (v : ℕ) :
    List (List Bool × List ℕ) :=
  match m with
  | [] => [(k, [v])]
  | p :: rest =>
    if p.1 = k then (p.1, p.2 ++ [v]) :: rest else p :: mapPush rest k v

/-- The built-in hash `e4b_lsh` (`src/e4b.cpp` lines 220-232).  For each
`i < n_hash`: `dot` accumulates `embd[j] * projections[i][j]` over
`j < n_embd` (the `n_embd` argument of the call, not necessarily the
configured width); then
`hi = (int) std::abs(std::floor((dot + offsets[i]) / (float) n_hash))`
and `hash[i] = (hi % 2 == 1)` (an `int` holding 0 or 1).
Note the source takes the absolute value of the floor, in that order. -/
def e4b_lsh (n_hash : ℕ) (lsh : e4b_lsh_context) (embd : List ℚ)
    (n_embd : ℕ) : List ℤ :=
  (List.range n_hash).map (fun i =>
    let dot : ℚ := ((List.range n_embd).map (fun j =>
      embd.getD j 0 * (lsh.projections.getD i []).getD j 0)).sum
    let hi : ℕ := (⌊(dot + lsh.offsets.getD i 0) / (n_hash : ℚ)⌋).natAbs
    if hi % 2 = 1 then 1 else 0)

/-- `e4b_internal_hash_to_key` (`src/e4b.cpp` lines 106-114): builds the
bucket key of length `n_hash`, marking position `i` when `hash[i] > 0`.
The C key is a `std::string` whose fill characters come from the literal
`"0"`; the model keeps the key as the list of marks, an injective,
deterministic encoding shared by `e4b_index` and `e4b_query`, which is
all the `std::map` observes of it. -/
def e4b_internal_hash_to_key (hash : List ℤ) (n_hash : ℕ) : List Bool :=
  (List.range n_hash).map (fun i => 0 < hash.getD i 0)

/-- `e4b_init` (`src/e4b.cpp` lines 76-96): sets `capacity` to
`n_init_capacity`, allocates the entry array (empty occupied prefix),
builds the LSH context with the constructor sizes (`offsets` sized
`n_embd`), then overwrites `projections[i][j]` with the normal draw
`nd i j` and `offsets[i]` with the uniform draw `ud i`, for
`i < n_hash` only (positions of `offsets` beyond `n_hash` keep their
zero-initialisation). -/
def e4b_init (cparams : e4b_context_params) (nd : ℕ → ℕ → ℚ)
    (ud : ℕ → ℚ) : e4b_context :=
  { cparams := cparams
    index := []
    lsh_ctx :=
      { projections := (List.range cparams.n_hash).map (fun i =>
          (List.range cparams.n_embd).map (fun j => nd i j))
        offsets := (List.range cparams.n_embd).map (fun i =>
          if i < cparams.n_hash then ud i else 0) }
    entries := []
    capacity := cparams.n_init_capacity }

/-- `e4b_internal_grow` (`src/e4b.cpp` lines 116-133): fails (returns
`false`, no mutation) under persistent storage; otherwise sets
`capacity = (uint32_t) grow_ratio * capacity` — the `float` ratio is
truncated to an unsigned integer BEFORE the multiplication — allocates
the new array, copies entries `0 ≤ i < size` across (the whole occupied
prefix, hence the model's `entries` list is unchanged) and replaces the
backing storage. -/
def e4b_internal_grow (ctx : e4b_context) : Bool × e4b_context :=
  if ctx.cparams.use_persistent_storage then
    (false, ctx)
  else
    (true, { ctx with capacity := (⌊ctx.cparams.grow_ratio⌋).toNat * ctx.capacity })

/-- The bucket key computed by `e4b_index` and `e4b_query` for an
embedding hashed over `n_q_embd` components (`e4b.cpp` lines 137-138 and
169-170): the built-in hash followed by `e4b_internal_hash_to_key`.
`e4b_index` passes the configured width, `e4b_query` the caller-supplied
`n_q_embd`. -/
def e4b_bucket_key (ctx : e4b_context) (q_embd : List ℚ) (n_q_embd : ℕ) :
    List Bool :=
  e4b_internal_hash_to_key
    (e4b_lsh ctx.cparams.n_hash ctx.lsh_ctx q_embd n_q_embd)
    ctx.cparams.n_hash

/-- `e4b_index` (`src/e4b.cpp` lines 135-161): hashes the embedding with
the configured width, derives the bucket key, grows when full (returning
the sentinel `(uint32_t)-1`, modelled `none`, when growth fails), stores
the entry at index `size`, increments `size`, and appends the handle to
the key's bucket. -/
def e4b_index (ctx : e4b_context) (text : String) (n_text : ℕ)
    (embd : List ℚ) : Option ℕ × e4b_context :=
  let key := e4b_bucket_key ctx embd ctx.cparams.n_embd
  let step : e4b_context → Option ℕ × e4b_context := fun c =>
    let idx := c.entries.length
    (some idx,
      { c with
        entries := c.entries ++ [⟨text, embd, n_text⟩]
        index := mapPush c.index key idx })
  if ctx.capacity = ctx.size then
    match e4b_internal_grow ctx with
    | (false, c) => (none, c)
    | (true, c) => step c
  else
    step ctx

/-- A query result entry, mirroring `struct e4b_query_result_entry`. -/
structure e4b_query_result_entry where
  idx : ℕ
  entry : e4b_entry
  score : ℚ
  deriving Repr, DecidableEq, Inhabited

/-- Query results, mirroring `struct e4b_query_results`.  The C struct
carries a pointer to the kept entries plus `n_results`; the model carries
the kept list (so `n_results` is `results.length`) and `total`. -/
structure e4b_query_results where
  results : List e4b_query_result_entry
  n_results : ℕ
  total : ℕ
  deriving Repr, DecidableEq

/-- The thrown `std::out_of_range` of `ctx->index.at(key)` on a missing
key: the only failure the query path can produce. -/
inductive QueryError where
  | out_of_range
  deriving Repr, DecidableEq

/-- Ordering used by the `std::sort` call of `e4b_query` (comparator
`a->score > b->score`): descending score. -/
def scoreGe (a b : e4b_query_result_entry) : Prop := b.score ≤ a.score

instance : DecidableRel scoreGe := fun a b =>
  inferInstanceAs (Decidable (b.score ≤ a.score))

instance : IsTotal e4b_query_result_entry scoreGe :=
  ⟨fun a b => le_total b.score a.score⟩

instance : IsTrans e4b_query_result_entry scoreGe :=
  ⟨fun _ _ _ h1 h2 => le_trans h2 h1⟩

/-- Sort by descending `score`, modelling the `std::sort` call with
comparator `a->score > b->score`.  `std::sort` leaves the relative order
of equal-score elements unspecified; the model fixes the stable order. -/
def sortByScoreDesc (l : List e4b_query_result_entry) :
    List e4b_query_result_entry :=
  List.insertionSort scoreGe l

/-- The scoring `std::transform` of `e4b_query` (`e4b.cpp` lines
183-196): each candidate handle `idx` is paired with its entry and the
score `1 / (1 + similarity)` where
`similarity = fn_similarity(q_embd, entries->embd, n_embd)` — note
`entries->embd` is `entries[0].embd`, the FIRST stored entry's
embedding, for every candidate. -/
def e4b_query_scored (ctx : e4b_context) (q_embd : List ℚ)
    (bucket : List ℕ) : List e4b_query_result_entry :=
  bucket.map (fun idx =>
    let entry := ctx.entries.getD idx default
    let sim := ctx.cparams.fn_similarity q_embd
      ((ctx.entries.getD 0 default).embd) ctx.cparams.n_embd
    ({ idx := idx, entry := entry, score := 1 / (1 + sim) } :
      e4b_query_result_entry))

/-- `e4b_query` (`src/e4b.cpp` lines 163-218): hashes the query embedding
over the SUPPLIED length `n_q_embd`, derives the key, and calls
`ctx->index.at(key)` — which throws `std::out_of_range` when the
signature was never inserted.  An empty bucket yields `total = 0` with no
results.  Otherwise the candidates are scored (`e4b_query_scored`),
sorted by descending `score`, truncated to `min(top_n, total)` and
filtered by `score >= similarity`. -/
def e4b_query (ctx : e4b_context) (q_embd : List ℚ) (n_q_embd : ℕ)
    (top_n : ℕ) (similarity : ℚ) :
    Except QueryError e4b_query_results :=
  match mapFind ctx.index (e4b_bucket_key ctx q_embd n_q_embd) with
  | none => .error .out_of_range
  | some bucket =>
    if bucket = [] then
      .ok { results := [], n_results := 0, total := 0 }
    else
      let sorted := sortByScoreDesc (e4b_query_scored ctx q_embd bucket)
      let total := sorted.length
      let kept := (sorted.take (min top_n total)).filter
        (fun r => similarity ≤ r.score)
      .ok { results := kept, n_results := kept.length, total := total }

/-! ### Concrete fixtures for counterexamples and witnesses -/

/-- Zero stream of normal draws (a possible output of `mt19937`). -/
def ndZ : ℕ → ℕ → ℚ := fun _ _ => 0

/-- Zero stream of uniform draws. -/
def udZ : ℕ → ℚ := fun _ => 0

/-- A one-dimensional configuration whose pluggable similarity function
returns the first component of its second argument (so the value shows
which embedding was actually passed to it). -/
def cpA : e4b_context_params :=
  { n_embd := 1, n_max := 10, similarity_search_target := 4/5,
    fn_similarity := fun _ b _ => b.getD 0 0,
    n_hash := 1, n_init_capacity := 4, grow_ratio := 2,
    use_persistent_storage := false }

def ctxA0 : e4b_context := e4b_init cpA ndZ udZ

def ctxA1 : e4b_context := (e4b_index ctxA0 "a" 1 [10]).2

def ctxA2 : e4b_context := (e4b_index ctxA1 "b" 1 [20]).2

/-- The concrete outcome of `e4b_query ctxA2 [0] 1 5 0`: both candidates
carry the score `1/(1 + fn_similarity([0], entries[0].embd)) = 1/11`. -/
def resA : e4b_query_results :=
  { results :=
      [ { idx := 0, entry := { text := "a", embd := [10], n_text := 1 },
          score := 1/11 },
        { idx := 1, entry := { text := "b", embd := [20], n_text := 1 },
          score := 1/11 } ],
    n_results := 2, total := 2 }

/-- Evaluation of the whole pipeline on the two-entry fixture. -/
theorem queryA_eval : e4b_query ctxA2 [0] 1 5 0 = .ok resA := by
  norm_num [ctxA2, ctxA1, ctxA0, cpA, ndZ, udZ, e4b_init, e4b_index, e4b_internal_grow,
    e4b_bucket_key, e4b_lsh, e4b_internal_hash_to_key, mapPush, mapFind, e4b_context.size,
    e4b_query, e4b_query_scored, sortByScoreDesc, scoreGe, List.range_succ, resA]
  decide

/-! ### C1 — per-candidate scoring -/

/-- C1: the claim states that for every candidate handle `h` in the hit
bucket, the result entry for `h` has
`score = similarity_fn(query_embedding, get(h).embedding)`.  The code
instead evaluates `fn_similarity(q_embd, entries->embd, n_embd)` — with
`entries->embd` the embedding of entry 0, the same for every candidate —
and then stores `1/(1+similarity)`.  Concretely: after inserting `"a"`
(embedding `[10]`) and `"b"` (embedding `[20]`) into one bucket, with
`fn_similarity` returning the first component of its second argument,
the result entry for handle 1 carries score `1/11`
(built from entry 0's embedding `[10]`), although
`similarity_fn(query, get(1).embedding) = 20`; the score is neither that
raw value nor even its `1/(1+s)` transform `1/21`. -/
theorem C1_score_not_from_own_embedding :
    e4b_query ctxA2 [0] 1 5 0 = .ok resA
    ∧ (resA.results.getD 1 default).idx = 1
    ∧ (resA.results.getD 1 default).score = 1/11
    ∧ cpA.fn_similarity [0] (ctxA2.entries.getD 1 default).embd cpA.n_embd = 20
    ∧ ((1 : ℚ)/11 ≠ 20 ∧ (1 : ℚ)/11 ≠ 1/(1 + 20)) := by
  refine ⟨queryA_eval, by norm_num [resA], by norm_num [resA], ?_, by norm_num, by norm_num⟩
  norm_num [cpA, ctxA2, ctxA1, ctxA0, cpA, ndZ, udZ, e4b_init, e4b_index,
    e4b_internal_grow, e4b_bucket_key, e4b_lsh, e4b_internal_hash_to_key, mapPush,
    e4b_context.size, List.range_succ]

/-! ### C2 — ranking direction -/

/-- C2: the claim states the returned order satisfies
`similarity_fn(q, r1.entry.embedding) ≥ similarity_fn(q, r2.entry.embedding)`
whenever `r1` precedes `r2`, with no transform applied before ranking.
The code ranks by `score = 1/(1+similarity)` where `similarity` is
computed from entry 0's embedding for every candidate, so every
candidate of a query gets the same score and the order cannot track the
candidates' own similarities.  Concretely: the query returns handle 0
(own similarity 10) before handle 1 (own similarity 20), violating the
claimed inequality, and the stored scores `[1/11, 1/11]` are a transform
of the similarity value, not the raw `[10, 20]`. -/
theorem C2_ranking_inverted_by_transform :
    e4b_query ctxA2 [0] 1 5 0 = .ok resA
    ∧ resA.results.map (fun r => cpA.fn_similarity [0] r.entry.embd cpA.n_embd)
        = [10, 20]
    ∧ ¬ ((10 : ℚ) ≥ 20)
    ∧ resA.results.map (fun r => r.score) = [1/11, 1/11] := by
  refine ⟨queryA_eval, by norm_num [resA, cpA], by norm_num, by norm_num [resA]⟩

/-! ### C3 — bucket miss -/

/-- C3: the claim states a query whose signature has never been inserted
returns normally with empty results and `total = 0`.  The code calls
`ctx->index.at(key)`, and `std::map::at` throws `std::out_of_range` when
the key is absent: on a freshly initialised index, any query fails with
that exception instead of returning the empty result set. -/
theorem C3_query_miss_throws :
    e4b_query ctxA0 [0] 1 5 0 = .error .out_of_range
    ∧ e4b_query ctxA0 [0] 1 5 0 ≠ .ok { results := [], n_results := 0, total := 0 } := by
  have h : e4b_query ctxA0 [0] 1 5 0 = .error .out_of_range := rfl
  exact ⟨h, by simp [h]⟩

/-! ### C4 — dimensionality guard -/

/-- A two-dimensional configuration (same marker similarity function). -/
def cpB : e4b_context_params :=
  { n_embd := 2, n_max := 10, similarity_search_target := 4/5,
    fn_similarity := fun _ b _ => b.getD 0 0,
    n_hash := 1, n_init_capacity := 4, grow_ratio := 2,
    use_persistent_storage := false }

def ctxB1 : e4b_context := (e4b_index (e4b_init cpB ndZ udZ) "a" 1 [3, 4]).2

/-- The concrete outcome of the mismatched-width query on `ctxB1`. -/
def resB : e4b_query_results :=
  { results :=
      [ { idx := 0, entry := { text := "a", embd := [3, 4], n_text := 1 },
          score := 1/4 } ],
    n_results := 1, total := 1 }

/-- C4, counterexample: the claim states every `insert`/`query` call whose
embedding length differs from `embedding_width` fails with
`DimensionMismatch` and mutates nothing.  The code contains no
dimensionality check at all: on an index of width 2, a query with a
length-1 embedding returns normally with results, and an insert with a
length-1 embedding succeeds, returning handle 1 and mutating the store. -/
theorem C4_counterexample :
    (1 : ℕ) ≠ cpB.n_embd
    ∧ e4b_query ctxB1 [9] 1 5 0 = .ok resB
    ∧ (e4b_index ctxB1 "c" 1 [7]).1 = some 1
    ∧ ((e4b_index ctxB1 "c" 1 [7]).2).size = 2 := by
  refine ⟨by decide, ?_, ?_, ?_⟩
  · norm_num [ctxB1, cpB, ndZ, udZ, e4b_init, e4b_index, e4b_internal_grow,
      e4b_bucket_key, e4b_lsh, e4b_internal_hash_to_key, mapPush, mapFind,
      e4b_context.size, e4b_query, e4b_query_scored, sortByScoreDesc, scoreGe,
      List.range_succ, resB]
  · norm_num [ctxB1, cpB, ndZ, udZ, e4b_init, e4b_index, e4b_internal_grow,
      e4b_bucket_key, e4b_lsh, e4b_internal_hash_to_key, mapPush,
      e4b_context.size, List.range_succ]
  · norm_num [ctxB1, cpB, ndZ, udZ, e4b_init, e4b_index, e4b_internal_grow,
      e4b_bucket_key, e4b_lsh, e4b_internal_hash_to_key, mapPush,
      e4b_context.size, List.range_succ]

/-- C4, amended: neither `e4b_index` nor `e4b_query` validates the
embedding length against `embedding_width`.  A query whose `n_q_embd`
differs from the configured width proceeds normally — it either returns
results or fails with the ordinary `std::out_of_range` of a bucket miss,
never with a dimension error — and an insert whose embedding length
differs from the width succeeds whenever capacity is available,
returning the next handle and growing the store by one entry. -/
theorem C4_no_dimension_check (ctx : e4b_context) (q_embd : List ℚ)
    (n_q_embd top_n : ℕ) (thr : ℚ) (text : String) (n_text : ℕ)
    (embd : List ℚ) (hq : n_q_embd ≠ ctx.cparams.n_embd)
    (he : embd.length ≠ ctx.cparams.n_embd)
    (hcap : ctx.size < ctx.capacity) :
    ((e4b_query ctx q_embd n_q_embd top_n thr).isOk = true
      ∨ e4b_query ctx q_embd n_q_embd top_n thr = .error .out_of_range)
    ∧ (e4b_index ctx text n_text embd).1 = some ctx.size
    ∧ ((e4b_index ctx text n_text embd).2).size = ctx.size + 1 := by
  refine ⟨?_, ?_, ?_⟩
  · unfold e4b_query
    cases hm : mapFind ctx.index (e4b_bucket_key ctx q_embd n_q_embd) with
    | none => exact Or.inr rfl
    | some bucket =>
      by_cases hb : bucket = [] <;> simp [hb, Except.isOk, Except.toBool]
  · have hne : ¬ ctx.capacity = ctx.entries.length :=
      fun hh => absurd hh.symm (Nat.ne_of_lt hcap)
    simp [e4b_index, hne, e4b_context.size]
  · have hne : ¬ ctx.capacity = ctx.entries.length :=
      fun hh => absurd hh.symm (Nat.ne_of_lt hcap)
    simp [e4b_index, hne, e4b_context.size]

/-- Witness for `C4_no_dimension_check` at the concrete fixture. -/
theorem C4_no_dimension_check_witness :
    ((e4b_query ctxB1 [9] 1 5 0).isOk = true
      ∨ e4b_query ctxB1 [9] 1 5 0 = .error .out_of_range)
    ∧ (e4b_index ctxB1 "c" 1 [7]).1 = some ctxB1.size
    ∧ ((e4b_index ctxB1 "c" 1 [7]).2).size = ctxB1.size + 1 :=
  C4_no_dimension_check ctxB1 [9] 1 5 0 "c" 1 [7] (by decide) (by decide)
    (by decide)

/-! ### C5 — the built-in hash formula -/

/-- Modelled from the spec's words (§4.2, the sentence C5 quotes): for
each hash index `i`, `dot_i = Σ_j embedding[j] * projections[i][j]`,
`v_i = (dot_i + offsets[i]) / hash_count`, and bit `i` is
`floor(|v_i|) mod 2` — the parity of the integer part of the MAGNITUDE
of `v_i`.  Kept side by side with `e4b_lsh` (which computes
`|floor(v_i)| mod 2`) to compare the two. -/
def e4b_lsh_spec (n_hash : ℕ) (lsh : e4b_lsh_context) (embd : List ℚ)
    (n_embd : ℕ) : List ℤ :=
  (List.range n_hash).map (fun i =>
    let dot : ℚ := ((List.range n_embd).map (fun j =>
      embd.getD j 0 * (lsh.projections.getD i []).getD j 0)).sum
    let hi : ℕ := (⌊|(dot + lsh.offsets.getD i 0) / (n_hash : ℚ)|⌋).toNat
    if hi % 2 = 1 then 1 else 0)

/-- One-dimensional projector whose single projection weight is `-3/2`
(a possible normal draw), so the embedding `[1]` lands at
`v_0 = -3/2`. -/
def ndC : ℕ → ℕ → ℚ := fun _ _ => -(3/2)

def cpC : e4b_context_params :=
  { n_embd := 1, n_max := 10, similarity_search_target := 4/5,
    fn_similarity := fun _ b _ => b.getD 0 0,
    n_hash := 1, n_init_capacity := 4, grow_ratio := 2,
    use_persistent_storage := false }

def lshC : e4b_lsh_context := (e4b_init cpC ndC udZ).lsh_ctx

/-- C5, counterexample: the claim words the bit as `floor(|v_i|) mod 2`.
At `v_0 = -3/2` that gives `floor(3/2) = 1`, an odd integer part, so the
claimed bit is 1; the code computes `abs(floor(-3/2)) = |-2| = 2`, an
even value, so the produced bit is 0.  The code takes the absolute value
AFTER flooring, and the two orders disagree at every negative
non-integer `v_i` with 'odd' fractional context such as this one. -/
theorem C5_counterexample :
    e4b_lsh cpC.n_hash lshC [1] cpC.n_embd = [0]
    ∧ e4b_lsh_spec cpC.n_hash lshC [1] cpC.n_embd = [1]
    ∧ ([0] : List ℤ) ≠ [1] := by
  refine ⟨?_, ?_, by decide⟩ <;>
    norm_num [e4b_lsh, e4b_lsh_spec, lshC, cpC, ndC, udZ, e4b_init,
      List.range_succ, abs_of_nonneg]

/-- Sum of a function mapped over `List.range` as a `Finset` sum. -/
theorem list_sum_range_eq_finset_sum (f : ℕ → ℚ) (n : ℕ) :
    ((List.range n).map f).sum = ∑ j ∈ Finset.range n, f j := by
  induction n with
  | zero => simp
  | succ m ih => simp [List.range_succ, Finset.sum_range_succ, ih]

/-- C5, amended: for every embedding of length `embedding_width` and
hash index `i < hash_count`, bit `i` of the built-in hash is
`|floor(v_i)| mod 2` — the parity of the absolute value of the FLOOR of
`v_i = (dot_i + offsets[i]) / hash_count`, with
`dot_i = Σ_j embedding[j] * projections[i][j]` (absolute value taken
after flooring, not before). -/
theorem C5_lsh_bit_formula (n_hash : ℕ) (lsh : e4b_lsh_context)
    (embd : List ℚ) (n_embd i : ℕ) (hi : i < n_hash)
    (hlen : embd.length = n_embd) :
    (e4b_lsh n_hash lsh embd n_embd).getD i 0 =
      (if (⌊((∑ j ∈ Finset.range n_embd,
            embd.getD j 0 * (lsh.projections.getD i []).getD j 0)
            + lsh.offsets.getD i 0) / (n_hash : ℚ)⌋).natAbs % 2 = 1
        then 1 else 0) := by
  unfold e4b_lsh
  rw [List.getD_eq_getElem?_getD, List.getElem?_map, List.getElem?_range hi]
  simp [list_sum_range_eq_finset_sum]

/-- Witness for `C5_lsh_bit_formula` at the concrete projector. -/
theorem C5_lsh_bit_formula_witness :
    (e4b_lsh cpC.n_hash lshC [1] cpC.n_embd).getD 0 0 =
      (if (⌊((∑ j ∈ Finset.range cpC.n_embd,
            ([1] : List ℚ).getD j 0 * (lshC.projections.getD 0 []).getD j 0)
            + lshC.offsets.getD 0 0) / (cpC.n_hash : ℚ)⌋).natAbs % 2 = 1
        then 1 else 0) :=
  C5_lsh_bit_formula cpC.n_hash lshC [1] cpC.n_embd 0 (by decide) (by decide)

/-! ### C6 — projector state at construction -/

/-- Uniform draws `1, 2, 3, ...` (possible outputs of the uniform
distribution over `[0, n_hash)` when `n_hash` is large enough; the
concrete values only mark which stream position was consumed). -/
def udD : ℕ → ℚ := fun i => (i : ℚ) + 1

/-- A configuration with `n_hash = 2` hyperplanes over width-3
embeddings. -/
def cpD : e4b_context_params :=
  { n_embd := 3, n_max := 10, similarity_search_target := 4/5,
    fn_similarity := fun _ b _ => b.getD 0 0,
    n_hash := 2, n_init_capacity := 4, grow_ratio := 2,
    use_persistent_storage := false }

/-- C6, counterexample: the claim states the projector allocates and
populates exactly `hash_count` offset scalars.  The constructor
`e4b_lsh_context(n_hash, n_embd)` sizes `offsets` with `n_embd`
(`offsets(n_embd)`, `e4b.cpp` line 38): with `hash_count = 2` and
`embedding_width = 3`, the offsets vector has 3 elements, not 2 — only
the first `hash_count` are populated with uniform draws, the rest stay
zero-initialised. -/
theorem C6_counterexample :
    (e4b_init cpD ndZ udD).lsh_ctx.offsets.length = 3
    ∧ cpD.n_hash = 2
    ∧ (3 : ℕ) ≠ 2
    ∧ (e4b_init cpD ndZ udD).lsh_ctx.offsets = [1, 2, 0] := by
  refine ⟨by rfl, by rfl, by decide, ?_⟩
  norm_num [e4b_init, cpD, udD, List.range_succ]

/-- C6, amended: at construction the projector allocates
`embedding_width` offset scalars (not `hash_count`), populating the
first `hash_count` of them with the uniform draws, alongside
`hash_count` projection vectors of length `embedding_width` populated
with the normal draws; and the LSH state is never mutated by any
subsequent `e4b_index` call (the distributional part of the claim — the
draws being independent uniform samples over `[0, hash_count)` — is
abstracted as an indexed stream `ud` of draws).  -/
theorem C6_lsh_state_shape (cp : e4b_context_params) (nd : ℕ → ℕ → ℚ)
    (ud : ℕ → ℚ) (i : ℕ) (hih : i < cp.n_hash) (hie : i < cp.n_embd)
    (ctx : e4b_context) (text : String) (n_text : ℕ) (embd : List ℚ) :
    (e4b_init cp nd ud).lsh_ctx.offsets.length = cp.n_embd
    ∧ (e4b_init cp nd ud).lsh_ctx.projections.length = cp.n_hash
    ∧ ((e4b_init cp nd ud).lsh_ctx.projections.getD i []).length = cp.n_embd
    ∧ (e4b_init cp nd ud).lsh_ctx.offsets.getD i 0 = ud i
    ∧ ((e4b_index ctx text n_text embd).2).lsh_ctx = ctx.lsh_ctx := by
  refine ⟨by simp [e4b_init], by simp [e4b_init], ?_, ?_, ?_⟩
  · rw [e4b_init]
    rw [List.getD_eq_getElem?_getD, List.getElem?_map, List.getElem?_range hih]
    simp
  · rw [e4b_init]
    rw [List.getD_eq_getElem?_getD, List.getElem?_map, List.getElem?_range hie]
    simp [hih]
  · rw [e4b_index]
    rcases hg : e4b_internal_grow ctx with ⟨b, c⟩
    have hc : c.lsh_ctx = ctx.lsh_ctx := by
      rw [e4b_internal_grow] at hg
      by_cases hp : ctx.cparams.use_persistent_storage <;>
        simp [hp] at hg <;> simp [← hg.2]
    cases b <;> simp [hg, hc] <;> split <;> simp [hg, hc]

/-- Witness for `C6_lsh_state_shape` at the concrete fixture. -/
theorem C6_lsh_state_shape_witness :
    (e4b_init cpD ndZ udD).lsh_ctx.offsets.length = cpD.n_embd
    ∧ (e4b_init cpD ndZ udD).lsh_ctx.projections.length = cpD.n_hash
    ∧ ((e4b_init cpD ndZ udD).lsh_ctx.projections.getD 0 []).length = cpD.n_embd
    ∧ (e4b_init cpD ndZ udD).lsh_ctx.offsets.getD 0 0 = udD 0
    ∧ ((e4b_index ctxA2 "z" 1 [5]).2).lsh_ctx = ctxA2.lsh_ctx :=
  C6_lsh_state_shape cpD ndZ udD 0 (by decide) (by decide) ctxA2 "z" 1 [5]

/-! ### C7 — persistent-mode growth failure -/

/-- C7: with `use_persistent_storage = true` and a full store
(`size == capacity`), `e4b_index` fails — `e4b_internal_grow` returns
`false` on the persistent path (the `FIXME grow mmap` stub) and the call
returns the `(uint32_t)-1` sentinel — and the WHOLE context is returned
unchanged: same `size`, same `capacity`, no entry stored, no bucket
touched. -/
theorem C7_persistent_full_insert_fails (ctx : e4b_context)
    (text : String) (n_text : ℕ) (embd : List ℚ)
    (hp : ctx.cparams.use_persistent_storage = true)
    (hfull : ctx.size = ctx.capacity) :
    e4b_index ctx text n_text embd = (none, ctx) := by
  have hc : ctx.capacity = ctx.entries.length := hfull.symm
  rw [e4b_index]
  simp [hc, e4b_context.size, e4b_internal_grow, hp]

/-- A zero-capacity persistent configuration: the store is full at once. -/
def cpE : e4b_context_params :=
  { n_embd := 1, n_max := 10, similarity_search_target := 4/5,
    fn_similarity := fun _ b _ => b.getD 0 0,
    n_hash := 1, n_init_capacity := 0, grow_ratio := 2,
    use_persistent_storage := true }

def ctxE : e4b_context := e4b_init cpE ndZ udZ

/-- Witness for `C7_persistent_full_insert_fails`. -/
theorem C7_persistent_full_insert_fails_witness :
    e4b_index ctxE "a" 1 [1] = (none, ctxE) :=
  C7_persistent_full_insert_fails ctxE "a" 1 [1] rfl rfl

/-! ### C8 — two-stage selection -/

/-- Sorting does not change the number of candidates. -/
theorem sortByScoreDesc_length (l : List e4b_query_result_entry) :
    (sortByScoreDesc l).length = l.length :=
  List.length_insertionSort scoreGe l

/-- C8: for every query that returns (no `std::out_of_range`), selection
is two-stage in the source's order: the candidates of the hit bucket are
scored and sorted, the sorted list is truncated to its first
`min(top_n, total)` elements, and only then are candidates with
`score >= similarity_threshold` retained, in sorted order.
Consequently `results.length <= top_n`, `results.length <= total`, the
returned `results` list is ordered by descending score, and `total` is
the full bucket size before truncation or filtering. -/
theorem C8_two_stage_selection (ctx : e4b_context) (q_embd : List ℚ)
    (n_q_embd top_n : ℕ) (thr : ℚ) (r : e4b_query_results)
    (h : e4b_query ctx q_embd n_q_embd top_n thr = .ok r) :
    r.total = ((mapFind ctx.index (e4b_bucket_key ctx q_embd n_q_embd)).getD []).length
    ∧ r.results = ((sortByScoreDesc (e4b_query_scored ctx q_embd
        ((mapFind ctx.index (e4b_bucket_key ctx q_embd n_q_embd)).getD []))).take
          (min top_n r.total)).filter (fun e => thr ≤ e.score)
    ∧ r.n_results = r.results.length
    ∧ r.results.length ≤ top_n
    ∧ r.results.length ≤ r.total
    ∧ r.results.Pairwise scoreGe := by
  rw [e4b_query] at h
  cases hm : mapFind ctx.index (e4b_bucket_key ctx q_embd n_q_embd) with
  | none => rw [hm] at h; exact absurd h (by simp)
  | some bucket =>
    rw [hm] at h
    dsimp only at h
    simp only [Option.getD_some]
    by_cases hb : bucket = []
    · rw [if_pos hb] at h
      injection h with h2
      subst h2
      subst hb
      simp [e4b_query_scored, sortByScoreDesc]
    · rw [if_neg hb] at h
      injection h with h2
      subst h2
      refine ⟨?_, rfl, rfl, ?_, ?_, ?_⟩
      · simp [sortByScoreDesc_length, e4b_query_scored]
      · exact le_trans (List.length_filter_le _ _)
          (by simp only [List.length_take]; omega)
      · refine le_trans (List.length_filter_le _ _) ?_
        simp only [List.length_take]
        omega
      · exact List.Pairwise.sublist
          ((List.filter_sublist _).trans (List.take_sublist _ _))
          (List.sorted_insertionSort scoreGe _)

/-- Witness for `C8_two_stage_selection` on the evaluated fixture query. -/
theorem C8_two_stage_selection_witness :
    resA.total = ((mapFind ctxA2.index (e4b_bucket_key ctxA2 [0] 1)).getD []).length
    ∧ resA.results = ((sortByScoreDesc (e4b_query_scored ctxA2 [0]
        ((mapFind ctxA2.index (e4b_bucket_key ctxA2 [0] 1)).getD []))).take
          (min 5 resA.total)).filter (fun e => (0 : ℚ) ≤ e.score)
    ∧ resA.n_results = resA.results.length
    ∧ resA.results.length ≤ 5
    ∧ resA.results.length ≤ resA.total
    ∧ resA.results.Pairwise scoreGe :=
  C8_two_stage_selection ctxA2 [0] 1 5 0 resA queryA_eval

/-! ### C9 — growth arithmetic and invariant -/

/-- A configuration with fractional `grow_ratio = 3/2` and initial
capacity 1 (the spec requires only `grow_ratio > 1`). -/
def cpF : e4b_context_params :=
  { n_embd := 1, n_max := 10, similarity_search_target := 4/5,
    fn_similarity := fun _ b _ => b.getD 0 0,
    n_hash := 1, n_init_capacity := 1, grow_ratio := 3/2,
    use_persistent_storage := false }

def ctxF1 : e4b_context := (e4b_index (e4b_init cpF ndZ udZ) "a" 1 [1]).2

def ctxF2 : e4b_context := (e4b_index ctxF1 "b" 1 [2]).2

/-- C9, counterexample: the claim states growth sets the new capacity to
`capacity * grow_ratio` (rounded) and that `0 <= size <= capacity` holds
afterwards.  The code computes `(uint32_t) grow_ratio * capacity`,
truncating the FLOAT RATIO to an integer before multiplying: with
`grow_ratio = 3/2` and `capacity = 1`, the second insert triggers growth
yet the capacity stays `(uint32_t)1.5 * 1 = 1` (the claim's arithmetic
gives `round(1 * 3/2) = 2`), and the store ends with `size = 2 >
capacity = 1`, violating the claimed invariant. -/
theorem C9_counterexample :
    ctxF1.size = 1 ∧ ctxF1.capacity = 1
    ∧ (e4b_index ctxF1 "b" 1 [2]).1 = some 1
    ∧ ctxF2.capacity = 1
    ∧ ctxF2.size = 2
    ∧ ¬ (ctxF2.size ≤ ctxF2.capacity)
    ∧ (1 : ℕ) ≠ 2 := by
  refine ⟨?_, ?_, ?_, ?_, ?_, ?_, by decide⟩ <;>
    norm_num [ctxF2, ctxF1, cpF, ndZ, udZ, e4b_init, e4b_index,
      e4b_internal_grow, e4b_bucket_key, e4b_lsh, e4b_internal_hash_to_key,
      mapPush, e4b_context.size, List.range_succ]

/-- C9, amended: when a non-persistent store grows (`size == capacity`
at insert), the new capacity is `trunc(grow_ratio) * capacity` — the
float ratio truncated to an unsigned integer BEFORE the multiplication,
not a rounding of `capacity * grow_ratio` — the occupied entries are
copied unchanged into the new storage, so every previously returned
handle still reads its originally inserted entry, and the insert then
appends at handle `size`.  The invariant `size <= capacity` survives the
insert only when `trunc(grow_ratio) >= 2` and the capacity was
positive. -/
theorem C9_truncated_growth (ctx : e4b_context) (text : String)
    (n_text : ℕ) (embd : List ℚ)
    (hp : ctx.cparams.use_persistent_storage = false)
    (hfull : ctx.size = ctx.capacity) :
    ((e4b_index ctx text n_text embd).2).capacity
        = (⌊ctx.cparams.grow_ratio⌋).toNat * ctx.capacity
    ∧ (e4b_index ctx text n_text embd).1 = some ctx.size
    ∧ ((e4b_index ctx text n_text embd).2).size = ctx.size + 1
    ∧ (∀ h, h < ctx.size →
        ((e4b_index ctx text n_text embd).2).entries.getD h default
          = ctx.entries.getD h default)
    ∧ (2 ≤ (⌊ctx.cparams.grow_ratio⌋).toNat → 0 < ctx.capacity →
        ((e4b_index ctx text n_text embd).2).size
          ≤ ((e4b_index ctx text n_text embd).2).capacity) := by
  have hc : ctx.capacity = ctx.entries.length := hfull.symm
  rw [e4b_index]
  simp only [hc, e4b_context.size, e4b_internal_grow, hp, Bool.false_eq_true,
    if_false, if_pos rfl, if_true, eq_self_iff_true]
  refine ⟨trivial, trivial, by simp, ?_, ?_⟩
  · intro h hk
    exact List.getD_append _ _ _ _ hk
  · intro h2 hpos
    simp only [List.length_append, List.length_singleton]
    have h1 : 1 ≤ ctx.entries.length := by omega
    calc ctx.entries.length + 1 ≤ 2 * ctx.entries.length := by omega
    _ ≤ (⌊ctx.cparams.grow_ratio⌋).toNat * ctx.entries.length :=
        Nat.mul_le_mul_right _ h2

/-- A growth fixture with integer ratio 2: one entry fills capacity 1. -/
def cpG : e4b_context_params :=
  { n_embd := 1, n_max := 10, similarity_search_target := 4/5,
    fn_similarity := fun _ b _ => b.getD 0 0,
    n_hash := 1, n_init_capacity := 1, grow_ratio := 2,
    use_persistent_storage := false }

def ctxG1 : e4b_context := (e4b_index (e4b_init cpG ndZ udZ) "a" 1 [1]).2

/-- Witness for `C9_truncated_growth` at the concrete full store. -/
theorem C9_truncated_growth_witness :
    ((e4b_index ctxG1 "b" 1 [2]).2).capacity
        = (⌊ctxG1.cparams.grow_ratio⌋).toNat * ctxG1.capacity
    ∧ (e4b_index ctxG1 "b" 1 [2]).1 = some ctxG1.size
    ∧ ((e4b_index ctxG1 "b" 1 [2]).2).entries.getD 0 default
        = ctxG1.entries.getD 0 default
    ∧ ((e4b_index ctxG1 "b" 1 [2]).2).size ≤ ((e4b_index ctxG1 "b" 1 [2]).2).capacity := by
  obtain ⟨h1, h2, h3, h4, h5⟩ := C9_truncated_growth ctxG1 "b" 1 [2] rfl rfl
  refine ⟨h1, h2, h4 0 (by decide), h5 ?_ (by decide)⟩
  norm_num [ctxG1, cpG, ndZ, udZ, e4b_init, e4b_index, e4b_internal_grow,
    e4b_bucket_key, e4b_lsh, e4b_internal_hash_to_key, mapPush,
    e4b_context.size, List.range_succ]

/-! ### C10 — non-empty buckets invariant -/

/-- States reachable by the engine: a freshly initialised context
followed by any sequence of `e4b_index` calls (`e4b_query` takes the
context by const pointer and mutates nothing). -/
inductive Reachable : e4b_context → Prop where
  | init (cp : e4b_context_params) (nd : ℕ → ℕ → ℚ) (ud : ℕ → ℚ) :
      Reachable (e4b_init cp nd ud)
  | step (ctx : e4b_context) (text : String) (n_text : ℕ) (embd : List ℚ) :
      Reachable ctx → Reachable ((e4b_index ctx text n_text embd).2)

/-- A found key names one of the map's entries. -/
theorem mapFind_mem (m : List (List Bool × List ℕ)) (k : List Bool)
    (b : List ℕ) (h : mapFind m k = some b) : (k, b) ∈ m := by
  induction m with
  | nil => exact absurd h (by simp [mapFind])
  | cons p rest ih =>
    rw [mapFind] at h
    by_cases hk : p.1 = k
    · rw [if_pos hk] at h
      injection h with h2
      have hpk : p = (k, b) := by
        rcases p with ⟨p1, p2⟩
        simp only at hk h2
        rw [hk, h2]
      rw [← hpk]
      exact List.mem_cons_self p rest
    · rw [if_neg hk] at h
      right
      exact ih h

/-- `mapPush` never creates an empty bucket: a fresh key gets the
singleton `[v]`, an existing key gets one more handle appended. -/
theorem mapPush_nonempty (k : List Bool) (v : ℕ) :
    ∀ m : List (List Bool × List ℕ), (∀ p ∈ m, p.2 ≠ []) →
      ∀ p ∈ mapPush m k v, p.2 ≠ [] := by
  intro m
  induction m with
  | nil =>
    intro hm p hp
    rw [mapPush] at hp
    rcases List.mem_singleton.mp hp with rfl
    simp
  | cons q rest ih =>
    intro hm p hp
    rw [mapPush] at hp
    by_cases hk : q.1 = k
    · rw [if_pos hk] at hp
      rcases List.mem_cons.mp hp with rfl | hp2
      · simp
      · exact hm p (List.mem_cons_of_mem q hp2)
    · rw [if_neg hk] at hp
      rcases List.mem_cons.mp hp with rfl | hp2
      · exact hm p (List.mem_cons_self p rest)
      · exact ih (fun p2 hp2m => hm p2 (List.mem_cons_of_mem q hp2m)) p hp2

/-- One `e4b_index` step preserves non-emptiness of every bucket: a
failed insert leaves the map untouched, a successful one goes through
`mapPush`. -/
theorem e4b_index_buckets (ctx : e4b_context) (text : String) (n_text : ℕ)
    (embd : List ℚ) (hm : ∀ p ∈ ctx.index, p.2 ≠ []) :
    ∀ p ∈ ((e4b_index ctx text n_text embd).2).index, p.2 ≠ [] := by
  rw [e4b_index]
  by_cases hfull : ctx.capacity = ctx.size
  · rw [if_pos hfull]
    rw [e4b_internal_grow]
    by_cases hp : ctx.cparams.use_persistent_storage
    · simp only [hp, if_true]
      exact hm
    · simp only [hp, if_false, Bool.false_eq_true]
      exact mapPush_nonempty _ _ _ hm
  · rw [if_neg hfull]
    exact mapPush_nonempty _ _ _ hm

/-- In every reachable state every bucket of the map is non-empty. -/
theorem reachable_buckets_nonempty (ctx : e4b_context)
    (hr : Reachable ctx) : ∀ p ∈ ctx.index, p.2 ≠ [] := by
  induction hr with
  | init cp nd ud => simp [e4b_init]
  | step c text n_text embd hc ih => exact e4b_index_buckets c text n_text embd ih

/-- C10: in every reachable state, a signature key is present in the
bucket map only with a non-empty handle bucket — keys are created solely
by `index[key].push_back(idx)` and handles are never removed — so a
query whose signature lookup succeeds never observes an empty bucket
(the `bucket.empty()` branch of `e4b_query` is dead code in reachable
states). -/
theorem C10_found_buckets_nonempty (ctx : e4b_context) (k : List Bool)
    (b : List ℕ) (hr : Reachable ctx)
    (hf : mapFind ctx.index k = some b) : b ≠ [] :=
  reachable_buckets_nonempty ctx hr (k, b) (mapFind_mem ctx.index k b hf)

/-- Witness for `C10_found_buckets_nonempty`: after one insert into the
fresh fixture index, the key `[false]` maps to the bucket `[0]`. -/
theorem C10_found_buckets_nonempty_witness : ([0] : List ℕ) ≠ [] :=
  C10_found_buckets_nonempty ctxA1 [false] [0]
    (Reachable.step ctxA0 "a" 1 [10] (Reachable.init cpA ndZ udZ))
    (by norm_num [ctxA1, ctxA0, cpA, ndZ, udZ, e4b_init, e4b_index,
      e4b_internal_grow, e4b_bucket_key, e4b_lsh, e4b_internal_hash_to_key,
      mapPush, mapFind, e4b_context.size, List.range_succ])

end E4B
